import Mathlib

set_option autoImplicit false

/-!
Verification development for the friend-face-connect signaling coordinator.

The server side (the Deno WebSocket edge function) keeps an in-memory
registry of rooms and participants and relays offer/answer/ice-candidate
messages between sockets.  The client side (the two React hooks
useSFUConnection and useSupabaseVideoChat) keeps a per-remote-peer table of
peer-transport handles and decides offer/answer roles.

JavaScript `Map` objects are modelled as association lists that preserve
insertion order: `Map.set` on an existing key replaces the value in place,
`Map.set` on a fresh key appends, `Map.delete` removes the entry, and
iteration (`values()`) follows list order.  Sockets, media streams and
media tracks are opaque and modelled as natural-number handles; SDP blobs
and ICE candidates are opaque strings.
-/

namespace FriendFace

section AList

variable {κ β : Type} [DecidableEq κ]

/-- Lookup in an association list: the JS `Map.get`. -/
def alookup : List (κ × β) → κ → Option β
  | [], _ => none
  | (k, v) :: l, a => if k = a then some v else alookup l a

/-- Update in an association list: the JS `Map.set`.  An existing key keeps
its position and gets the new value; a fresh key is appended at the end. -/
def aset (l : List (κ × β)) (k : κ) (v : β) : List (κ × β) :=
  if (alookup l k).isSome then
    l.map (fun p => if p.1 = k then (k, v) else p)
  else
    l ++ [(k, v)]

/-- Deletion from an association list: the JS `Map.delete`. -/
def adel (l : List (κ × β)) (k : κ) : List (κ × β) :=
  l.filter (fun p => decide (p.1 ≠ k))

end AList

/-! Server model, translated from the Deno edge function (the room registry
and signaling router).  Sockets are opaque `Nat` handles; an outbox entry
`(s, m)` means message `m` was sent on socket `s`. -/

namespace Server

/-- Participant record of the server registry. -/
structure Participant where
  id : String
  socket : Nat
  roomId : String
  name : Option String
deriving DecidableEq

/-- Room record of the server registry. -/
structure Room where
  id : String
  participants : List (String × Participant)
  createdAt : Nat
deriving DecidableEq

/-- Global server state: the room map and the socket-to-participant map. -/
structure ServerState where
  rooms : List (String × Room)
  participants : List (Nat × Participant)
deriving DecidableEq

/-- Messages the server sends to clients. -/
inductive SMsg where
  | joinedRoom (roomId participantId : String) (participantCount : Nat)
  | existingParticipants (participants : List (String × Option String))
  | participantJoined (participantId : String) (name : Option String) (participantCount : Nat)
  | participantLeft (participantId : String) (participantCount : Nat)
  | offerMsg (fromParticipantId : String) (offer : String)
  | answerMsg (fromParticipantId : String) (answer : String)
  | iceMsg (fromParticipantId : String) (candidate : String)
  | errorMsg (message : String)
deriving DecidableEq

/-- Broadcast of one message to every participant of a room, optionally
excluding one participant id (`broadcastToRoom` in the source). -/
def broadcastToRoom (st : ServerState) (roomId : String) (msg : SMsg)
    (excludeParticipantId : Option String) : List (Nat × SMsg) :=
  match alookup st.rooms roomId with
  | none => []
  | some room =>
    (room.participants.map Prod.snd).filterMap (fun p =>
      if excludeParticipantId = some p.id then none else some (p.socket, msg))

/-- Handler for a join-room message (`handleJoinRoom` in the source):
creates the room if absent, inserts the participant into the room map and
the global map, acks with joined-room, broadcasts participant-joined to the
others, and sends the existing-participants snapshot to the joiner only
when that snapshot is nonempty. -/
def handleJoinRoom (sock now : Nat) (roomId participantId : String)
    (name : Option String) (st : ServerState) : ServerState × List (Nat × SMsg) :=
  let room0 : Room :=
    match alookup st.rooms roomId with
    | some r => r
    | none => { id := roomId, participants := [], createdAt := now }
  let p : Participant := { id := participantId, socket := sock, roomId := roomId, name := name }
  let room1 : Room := { room0 with participants := aset room0.participants participantId p }
  let st1 : ServerState :=
    { rooms := aset st.rooms roomId room1,
      participants := aset st.participants sock p }
  let cnt := room1.participants.length
  let joinBroadcast :=
    broadcastToRoom st1 roomId (SMsg.participantJoined participantId name cnt) (some participantId)
  let existing :=
    ((room1.participants.map Prod.snd).filter (fun q => decide (q.id ≠ participantId))).map
      (fun q => (q.id, q.name))
  let existingOut :=
    if existing.length > 0 then [(sock, SMsg.existingParticipants existing)] else []
  (st1, (sock, SMsg.joinedRoom roomId participantId cnt) :: joinBroadcast ++ existingOut)

/-- Handler for a relayed offer (`handleOffer` in the source).  The
`claimedFrom` argument models any sender-identity field the client may have
put into the inbound JSON: the source destructures only
`targetParticipantId` and `offer`, so the field is ignored. -/
def handleOffer (sock : Nat) (targetParticipantId offer : String)
    (claimedFrom : Option String) (st : ServerState) : ServerState × List (Nat × SMsg) :=
  match alookup st.participants sock with
  | none => (st, [(sock, SMsg.errorMsg "Participant not found")])
  | some participant =>
    match alookup st.rooms participant.roomId with
    | none => (st, [(sock, SMsg.errorMsg "Room not found")])
    | some room =>
      match alookup room.participants targetParticipantId with
      | none => (st, [(sock, SMsg.errorMsg "Target participant not found")])
      | some target =>
        (st, [(target.socket, SMsg.offerMsg participant.id offer)])

/-- Handler for a relayed answer (`handleAnswer` in the source). -/
def handleAnswer (sock : Nat) (targetParticipantId answer : String)
    (claimedFrom : Option String) (st : ServerState) : ServerState × List (Nat × SMsg) :=
  match alookup st.participants sock with
  | none => (st, [(sock, SMsg.errorMsg "Participant not found")])
  | some participant =>
    match alookup st.rooms participant.roomId with
    | none => (st, [(sock, SMsg.errorMsg "Room not found")])
    | some room =>
      match alookup room.participants targetParticipantId with
      | none => (st, [(sock, SMsg.errorMsg "Target participant not found")])
      | some target =>
        (st, [(target.socket, SMsg.answerMsg participant.id answer)])

/-- Handler for a relayed ICE candidate (`handleIceCandidate` in the source). -/
def handleIceCandidate (sock : Nat) (targetParticipantId candidate : String)
    (claimedFrom : Option String) (st : ServerState) : ServerState × List (Nat × SMsg) :=
  match alookup st.participants sock with
  | none => (st, [(sock, SMsg.errorMsg "Participant not found")])
  | some participant =>
    match alookup st.rooms participant.roomId with
    | none => (st, [(sock, SMsg.errorMsg "Room not found")])
    | some room =>
      match alookup room.participants targetParticipantId with
      | none => (st, [(sock, SMsg.errorMsg "Target participant not found")])
      | some target =>
        (st, [(target.socket, SMsg.iceMsg participant.id candidate)])

/-- Handler for a socket close (`handleDisconnect` in the source): no-op if
the socket has no registered participant; otherwise removes the participant
from its room (when that room still exists), broadcasts participant-left
with the new membership count to the remaining members, and removes the
socket from the global map. -/
def handleDisconnect (sock : Nat) (st : ServerState) : ServerState × List (Nat × SMsg) :=
  match alookup st.participants sock with
  | none => (st, [])
  | some participant =>
    match alookup st.rooms participant.roomId with
    | some room =>
      let room1 : Room := { room with participants := adel room.participants participant.id }
      let rooms1 := aset st.rooms participant.roomId room1
      let stMid : ServerState := { rooms := rooms1, participants := st.participants }
      let outbox := broadcastToRoom stMid participant.roomId
        (SMsg.participantLeft participant.id room1.participants.length) none
      ({ rooms := rooms1, participants := adel st.participants sock }, outbox)
    | none =>
      ({ st with participants := adel st.participants sock }, [])

/-- Handler for an explicit leave-room message (`handleLeaveRoom` in the
source), which just delegates to the disconnect handler. -/
def handleLeaveRoom (sock : Nat) (st : ServerState) : ServerState × List (Nat × SMsg) :=
  handleDisconnect sock st

/-- Expiry test of the periodic cleanup sweep: the source removes a room
when `now - room.createdAt` exceeds thirty minutes and the room has zero
participants.  The clock runs from the room's creation, not from the moment
it became empty. -/
def roomExpired (now : Nat) (room : Room) : Bool :=
  decide (30 * 60 * 1000 < now - room.createdAt) && decide (room.participants.length = 0)

/-- The periodic cleanup sweep (the `setInterval` body in the source). -/
def sweep (now : Nat) (st : ServerState) : ServerState :=
  { st with rooms := st.rooms.filter (fun rp => ! roomExpired now rp.2) }

/-- Timed server events, used to run concrete traces of the registry. -/
inductive SrvEvent where
  | evJoin (time sock : Nat) (roomId participantId : String) (name : Option String)
  | evDisconnect (time sock : Nat)
  | evSweep (time : Nat)

/-- State transition of the server for one event. -/
def stepServer (st : ServerState) (e : SrvEvent) : ServerState :=
  match e with
  | .evJoin t sock rid pid nm => (handleJoinRoom sock t rid pid nm st).1
  | .evDisconnect _ sock => (handleDisconnect sock st).1
  | .evSweep t => sweep t st

/-- Run a trace of server events from the empty registry. -/
def runServer (es : List SrvEvent) : ServerState :=
  es.foldl stepServer { rooms := [], participants := [] }

/-- Participants of a room as seen in a server state, empty when the room
does not exist.  Used to observe intermediate states of a trace. -/
def roomMembers (st : ServerState) (rid : String) : List String :=
  match alookup st.rooms rid with
  | none => []
  | some room => room.participants.map Prod.fst

/-- Prior co-members of a room from the joiner's point of view: the members
present just before a join by `pid`, minus any entry with that same id.
This is the snapshot the specification says the joiner must receive. -/
def priorOthers (st : ServerState) (rid pid : String) : List (String × Option String) :=
  match alookup st.rooms rid with
  | none => []
  | some room =>
    ((room.participants.map Prod.snd).filter (fun q => decide (q.id ≠ pid))).map
      (fun q => (q.id, q.name))

/-- Selector for existing-participants messages in an outbox. -/
def existingMsgs (outbox : List (Nat × SMsg)) : List (Nat × SMsg) :=
  outbox.filter (fun m => match m.2 with | .existingParticipants _ => true | _ => false)

/-- Key consistency of a room's participant map: every stored participant's
id equals its key.  The registry only ever inserts participants under their
own id, so this holds of every reachable room. -/
def KeyConsistentRoom (st : ServerState) (rid : String) : Prop :=
  ∀ kv ∈ (match alookup st.rooms rid with
          | some r => r.participants
          | none => ([] : List (String × Participant))), kv.2.id = kv.1

end Server

/-! Client model.  The peer transport primitive (the platform
RTCPeerConnection) is modelled by its contract: descriptions are opaque
strings, addIceCandidate succeeds and records the candidate only when a
remote description has been applied and otherwise rejects with
InvalidStateError, leaving the candidate unapplied (the hooks do not catch
that rejection, so the candidate is simply lost).  Every handle ever
created lives in `store`; its position is its identity, and closing marks
it rather than removing it, so liveness of old handles stays observable. -/

/-- Peer-transport handle state. -/
structure PC where
  peer : String
  localDesc : Option String
  remoteDesc : Option String
  applied : List String
  tracks : List Nat
  closed : Bool
deriving DecidableEq

/-- Messages a client sends to the signaling channel. -/
inductive ClientOut where
  | offerOut (targetParticipantId offer : String)
  | answerOut (targetParticipantId answer : String)
  | iceOut (targetParticipantId candidate : String)
deriving DecidableEq

/-- Replace the handle at index `i` of the store by `f` applied to it;
out-of-range indices leave the store unchanged. -/
def modifyPC (store : List PC) (i : Nat) (f : PC → PC) : List PC :=
  match store.get? i with
  | some pc => store.set i (f pc)
  | none => store

/-- Close the handle at index `i` (the `pc.close()` call). -/
def closePC (store : List PC) (i : Nat) : List PC :=
  modifyPC store i (fun pc => { pc with closed := true })

/-- Apply an ICE candidate to the handle at index `i`, following the
platform contract of `addIceCandidate`: appended to the applied sequence
when a remote description is present, rejected (hence lost, no queue)
otherwise. -/
def addIceCandidate (store : List PC) (i : Nat) (cand : String) : List PC :=
  match store.get? i with
  | some pc =>
    if pc.remoteDesc.isSome then store.set i { pc with applied := pc.applied ++ [cand] }
    else store
  | none => store

namespace SFU

/-- Client state of the useSFUConnection hook: the handle store, the
peer-connection table `peerConnectionsRef`, the `participants` roster, the
`remoteStreams` table (stream ids keyed by participant id), the acquired
capture tracks with their stopped flag, the current local stream's track
ids, the `isConnected` flag, and the messages sent on the socket. -/
structure CState where
  store : List PC
  table : List (String × Nat)
  roster : List (String × Option String)
  streams : List (String × Nat)
  media : List (Nat × Bool)
  localStream : Option (List Nat)
  connected : Bool
  sent : List ClientOut
deriving DecidableEq

/-- Close and remove any pre-existing handle for a participant id (the
check-and-close step at the top of createOfferForParticipant and
handleOffer in the source). -/
def closeExisting (pid : String) (st : CState) : CState :=
  match alookup st.table pid with
  | some i => { st with store := closePC st.store i, table := adel st.table pid }
  | none => st

/-- Create a fresh peer connection for a participant and register it in the
table (`createPeerConnection` in the source); returns its handle index. -/
def createPeerConnection (pid : String) (st : CState) : Nat × CState :=
  let i := st.store.length
  (i, { st with
        store := st.store ++ [{ peer := pid, localDesc := none, remoteDesc := none,
                                applied := [], tracks := [], closed := false }],
        table := aset st.table pid i })

/-- Offer creation for one participant (`createOfferForParticipant` in the
source): no-op without a stream; otherwise closes any prior handle, creates
a new one, attaches the local tracks, sets the local description to the
platform-produced offer `sdp`, and sends the offer to the peer. -/
def createOfferForParticipant (pid : String) (stream : Option (List Nat)) (sdp : String)
    (st : CState) : CState :=
  match stream.orElse (fun _ => st.localStream) with
  | none => st
  | some trs =>
    let st1 := closeExisting pid st
    let p := createPeerConnection pid st1
    let st3 := { p.2 with store := modifyPC p.2.store p.1 (fun pc => { pc with tracks := trs }) }
    let st4 := { st3 with store := modifyPC st3.store p.1 (fun pc => { pc with localDesc := some sdp }) }
    { st4 with sent := st4.sent ++ [ClientOut.offerOut pid sdp] }

/-- Handler for an incoming offer (`handleOffer` in the source): closes any
prior handle, creates a new one, attaches local tracks when a stream is
available (this hook proceeds even without one), applies the remote offer,
sets the local description to the produced answer, and sends the answer. -/
def handleOffer (fromPid offer : String) (stream : Option (List Nat)) (answerSdp : String)
    (st : CState) : CState :=
  let st1 := closeExisting fromPid st
  let p := createPeerConnection fromPid st1
  let st3 :=
    match stream.orElse (fun _ => st.localStream) with
    | some trs => { p.2 with store := modifyPC p.2.store p.1 (fun pc => { pc with tracks := trs }) }
    | none => p.2
  let st4 := { st3 with store := modifyPC st3.store p.1 (fun pc => { pc with remoteDesc := some offer }) }
  let st5 := { st4 with store := modifyPC st4.store p.1 (fun pc => { pc with localDesc := some answerSdp }) }
  { st5 with sent := st5.sent ++ [ClientOut.answerOut fromPid answerSdp] }

/-- Handler for an incoming answer (`handleAnswer` in the source): applies
it as remote description when a handle exists, else does nothing. -/
def handleAnswer (fromPid answer : String) (st : CState) : CState :=
  match alookup st.table fromPid with
  | some i => { st with store := modifyPC st.store i (fun pc => { pc with remoteDesc := some answer }) }
  | none => st

/-- Handler for an incoming ICE candidate (`handleIceCandidate` in the
source): forwarded to the handle's addIceCandidate when a handle exists,
else discarded.  There is no client-side candidate queue. -/
def handleIceCandidate (fromPid cand : String) (st : CState) : CState :=
  match alookup st.table fromPid with
  | some i => { st with store := addIceCandidate st.store i cand }
  | none => st

/-- Handler for the participant-joined server message: appends the new
participant to the roster and waits; no offer is created on this path. -/
def onParticipantJoined (pid : String) (name : Option String) (st : CState) : CState :=
  { st with roster := st.roster ++ [(pid, name)] }

/-- Handler for the existing-participants server message: replaces the
roster with the received list and creates one offer per listed participant
(the new joiner offers to everyone already present).  The map `sdpFor`
stands for the platform-produced offer description per peer. -/
def onExistingParticipants (ps : List (String × Option String)) (stream : Option (List Nat))
    (sdpFor : String → String) (st : CState) : CState :=
  let st1 := { st with roster := ps }
  ps.foldl (fun s q => createOfferForParticipant q.1 stream (sdpFor q.1) s) st1

/-- Handler for the participant-left server message: closes and removes the
peer's handle, then removes the peer from the roster and the remote-stream
table, all in the same event-processing step. -/
def onParticipantLeft (pid : String) (st : CState) : CState :=
  let st1 :=
    match alookup st.table pid with
    | some i => { st with store := closePC st.store i, table := adel st.table pid }
    | none => st
  { st1 with roster := adel st1.roster pid, streams := adel st1.streams pid }

/-- Handler run when the server closes the socket (the `ws.onclose`
callback): it only clears the connected flag. -/
def wsOnClose (st : CState) : CState :=
  { st with connected := false }

/-- Explicit hang-up (`disconnect` in the source): closes every handle in
the table, clears the table, stops every track of the current local stream,
drops the stream, and resets roster, stream table and connected flag. -/
def disconnect (st : CState) : CState :=
  let store1 := st.table.foldl (fun acc e => closePC acc e.2) st.store
  let media1 :=
    match st.localStream with
    | some ids => st.media.map (fun t => if t.1 ∈ ids then (t.1, true) else t)
    | none => st.media
  { store := store1, table := [], roster := [], streams := [],
    media := media1, localStream := none, connected := false, sent := st.sent }

end SFU

/-! Supabase presence hook model (useSupabaseVideoChat).  Broadcast
payloads on this channel carry a client-chosen fromParticipantId, so the
outbound message type records it. -/

/-- Messages the presence-hook client broadcasts on the room channel. -/
inductive SupaOut where
  | offerOut (targetParticipantId fromParticipantId offer : String)
  | answerOut (targetParticipantId fromParticipantId answer : String)
  | iceOut (targetParticipantId fromParticipantId candidate : String)
deriving DecidableEq

namespace Supa

/-- Client state of the useSupabaseVideoChat hook.  Same shape as the
WebSocket hook's state, plus the own participant id used in broadcast
payloads; this hook has no connected-flag-only teardown path modelled. -/
structure SState where
  selfId : String
  store : List PC
  table : List (String × Nat)
  roster : List (String × Option String)
  streams : List (String × Nat)
  localStream : Option (List Nat)
  sent : List SupaOut
deriving DecidableEq

/-- Close and remove any pre-existing handle for a participant id. -/
def closeExisting (pid : String) (st : SState) : SState :=
  match alookup st.table pid with
  | some i => { st with store := closePC st.store i, table := adel st.table pid }
  | none => st

/-- Create a fresh peer connection and register it in the table. -/
def createPeerConnection (pid : String) (st : SState) : Nat × SState :=
  let i := st.store.length
  (i, { st with
        store := st.store ++ [{ peer := pid, localDesc := none, remoteDesc := none,
                                applied := [], tracks := [], closed := false }],
        table := aset st.table pid i })

/-- Offer creation for one participant (`createOfferForParticipant` in the
source): returns unchanged without a stream; otherwise closes any prior
handle, creates a new one, attaches local tracks, sets the local
description and broadcasts the offer tagged with the own id. -/
def createOfferForParticipant (pid : String) (streamToUse : Option (List Nat)) (sdp : String)
    (st : SState) : SState :=
  match streamToUse.orElse (fun _ => st.localStream) with
  | none => st
  | some trs =>
    let st1 := closeExisting pid st
    let p := createPeerConnection pid st1
    let st3 := { p.2 with store := modifyPC p.2.store p.1 (fun pc => { pc with tracks := trs }) }
    let st4 := { st3 with store := modifyPC st3.store p.1 (fun pc => { pc with localDesc := some sdp }) }
    { st4 with sent := st4.sent ++ [SupaOut.offerOut pid st.selfId sdp] }

/-- Handler for an incoming answer broadcast. -/
def handleAnswer (fromPid answer : String) (st : SState) : SState :=
  match alookup st.table fromPid with
  | some i => { st with store := modifyPC st.store i (fun pc => { pc with remoteDesc := some answer }) }
  | none => st

/-- Handler for an incoming ICE candidate broadcast: applied through the
handle's addIceCandidate when a handle exists, else discarded; again no
client-side candidate queue exists. -/
def handleIceCandidate (fromPid cand : String) (st : SState) : SState :=
  match alookup st.table fromPid with
  | some i => { st with store := addIceCandidate st.store i cand }
  | none => st

/-- Handler for a presence join event: a foreign key triggers an offer only
when the own id sorts lower than the joiner's id (the id-ordering
tie-break); otherwise this endpoint waits for the other side's offer.  The
`stream` argument is the capture stream held by the subscription closure. -/
def onPresenceJoin (key : String) (stream : List Nat) (sdp : String) (st : SState) : SState :=
  if key = st.selfId then st
  else if st.selfId < key then createOfferForParticipant key (some stream) sdp st
  else st

/-- Handler for a presence leave event: closes and removes the peer's
handle and removes its remote-stream entry.  The roster is not touched
here; it is reconciled by the separate presence sync handler. -/
def onPresenceLeave (key : String) (st : SState) : SState :=
  let st1 :=
    match alookup st.table key with
    | some i => { st with store := closePC st.store i, table := adel st.table key }
    | none => st
  { st1 with streams := adel st1.streams key }

/-- Handler for a presence sync event: replaces the roster with the
presence state minus the own id. -/
def onPresenceSync (state : List (String × Option String)) (st : SState) : SState :=
  { st with roster := adel state st.selfId }

end Supa

/-- Live-handle count bookkeeping: all handles of a store created for a
given peer id that are not closed. -/
def liveFor (store : List PC) (pid : String) : List PC :=
  store.filter (fun pc => decide (pc.peer = pid) && ! pc.closed)

/-- Table-liveness invariant of the WebSocket hook's client state: every
live handle of the store is registered in the peer-connection table under
its peer id at its own index.  This is the inductive invariant behind the
at-most-one-live-handle-per-peer property. -/
def TableLive (st : SFU.CState) : Prop :=
  ∀ i pc, st.store.get? i = some pc → pc.closed = false → alookup st.table pc.peer = some i

/-- At most one live handle per remote participant id. -/
def AtMostOneLive (st : SFU.CState) : Prop :=
  ∀ i j pci pcj, st.store.get? i = some pci → st.store.get? j = some pcj →
    pci.closed = false → pcj.closed = false → pci.peer = pcj.peer → i = j

/-- Offer counter for the WebSocket hook's outbound messages. -/
def countOffersTo (msgs : List ClientOut) (tgt : String) : Nat :=
  (msgs.filter (fun m => match m with
    | .offerOut t _ => decide (t = tgt)
    | _ => false)).length

/-- Offer counter for the presence hook's broadcast messages. -/
def countOffersToS (msgs : List SupaOut) (tgt : String) : Nat :=
  (msgs.filter (fun m => match m with
    | .offerOut t _ _ => decide (t = tgt)
    | _ => false)).length

/-! Concrete demonstration states used by witness and counterexample
theorems. -/

/-- Demo server participant p1 on socket 1 in room R. -/
def demoP1 : Server.Participant := { id := "p1", socket := 1, roomId := "R", name := none }

/-- Demo server participant p2 on socket 2 in room R. -/
def demoP2 : Server.Participant := { id := "p2", socket := 2, roomId := "R", name := none }

/-- Demo room R holding p1 and p2. -/
def demoRoom : Server.Room :=
  { id := "R", participants := [("p1", demoP1), ("p2", demoP2)], createdAt := 0 }

/-- Demo server state with room R and its two participants registered. -/
def demoSrv : Server.ServerState :=
  { rooms := [("R", demoRoom)], participants := [(1, demoP1), (2, demoP2)] }

/-- Demo WebSocket-hook client state: freshly connected, local stream
acquired (one track), no peers yet. -/
def demoClientA : SFU.CState :=
  { store := [], table := [], roster := [], streams := [], media := [(0, false)],
    localStream := some [0], connected := true, sent := [] }

/-- Demo WebSocket-hook client state of a second endpoint. -/
def demoClientB : SFU.CState :=
  { store := [], table := [], roster := [], streams := [], media := [(1, false)],
    localStream := some [1], connected := true, sent := [] }

/-- Demo WebSocket-hook client state mid-call: one live handle for peer p,
a roster entry and a remote stream entry for p. -/
def demoSFUMid : SFU.CState :=
  { store := [{ peer := "p", localDesc := some "o", remoteDesc := some "a", applied := [],
                tracks := [0], closed := false }],
    table := [("p", 0)], roster := [("p", some "Pat")], streams := [("p", 5)],
    media := [(0, false)], localStream := some [0], connected := true, sent := [] }

/-- Demo presence-hook client state with own id a. -/
def demoSupaA : Supa.SState :=
  { selfId := "a", store := [], table := [], roster := [], streams := [],
    localStream := some [0], sent := [] }

/-- Demo presence-hook client state with own id b. -/
def demoSupaB : Supa.SState :=
  { selfId := "b", store := [], table := [], roster := [], streams := [],
    localStream := some [1], sent := [] }

/-- Demo presence-hook client state mid-call: one live handle for peer p,
a roster entry and a remote stream entry for p. -/
def demoSupaMid : Supa.SState :=
  { selfId := "me",
    store := [{ peer := "p", localDesc := some "o", remoteDesc := some "a", applied := [],
                tracks := [0], closed := false }],
    table := [("p", 0)], roster := [("p", some "Pat")], streams := [("p", 5)],
    localStream := some [0], sent := [] }

/-! Helper lemmas about the association-list operations and the handle
store.  These are shared by the claim theorems below. -/

section AListLemmas

variable {κ β : Type} [DecidableEq κ]

theorem alookup_append (l1 l2 : List (κ × β)) (a : κ) :
    alookup (l1 ++ l2) a = ((alookup l1 a).orElse (fun _ => alookup l2 a)) := by
  induction l1 with
  | nil => simp [alookup]
  | cons hd tl ih =>
    by_cases h : hd.1 = a <;> simp [alookup, h, ih]

theorem alookup_replace_self (l : List (κ × β)) (k : κ) (v : β) :
    alookup (l.map (fun p => if p.1 = k then (k, v) else p)) k =
      if (alookup l k).isSome then some v else none := by
  induction l with
  | nil => simp [alookup]
  | cons hd tl ih =>
    obtain ⟨k0, v0⟩ := hd
    rw [List.map_cons]
    show alookup ((if k0 = k then (k, v) else (k0, v0)) :: _) k = _
    by_cases h : k0 = k
    · rw [if_pos h]
      simp [alookup, h]
    · rw [if_neg h]
      simp [alookup, h, ih]

theorem alookup_replace_ne (l : List (κ × β)) (k : κ) (v : β) (a : κ) (h : a ≠ k) :
    alookup (l.map (fun p => if p.1 = k then (k, v) else p)) a = alookup l a := by
  induction l with
  | nil => simp [alookup]
  | cons hd tl ih =>
    obtain ⟨k0, v0⟩ := hd
    rw [List.map_cons]
    show alookup ((if k0 = k then (k, v) else (k0, v0)) :: _) a = _
    by_cases hh : k0 = k
    · have h1 : ¬ (k = a) := fun he => h he.symm
      have h2 : ¬ (k0 = a) := by rw [hh]; exact h1
      rw [if_pos hh]
      simp [alookup, h1, h2, ih]
    · rw [if_neg hh]
      by_cases ha : k0 = a <;> simp [alookup, ha, ih]

theorem alookup_aset_self (l : List (κ × β)) (k : κ) (v : β) :
    alookup (aset l k v) k = some v := by
  unfold aset
  by_cases h : (alookup l k).isSome
  · simp [h, alookup_replace_self]
  · simp [h, alookup_append, alookup]
    cases hl : alookup l k with
    | none => simp
    | some w => rw [hl] at h; simp at h

theorem alookup_aset_ne (l : List (κ × β)) (k : κ) (v : β) (a : κ) (h : a ≠ k) :
    alookup (aset l k v) a = alookup l a := by
  unfold aset
  by_cases hs : (alookup l k).isSome
  · simp [hs, alookup_replace_ne _ _ _ _ h]
  · have h1 : ¬ (k = a) := fun he => h he.symm
    rw [if_neg hs, alookup_append]
    show ((alookup l a).orElse fun _ => if k = a then some v else none) = alookup l a
    rw [if_neg h1]
    cases alookup l a <;> rfl

theorem alookup_adel_self (l : List (κ × β)) (k : κ) :
    alookup (adel l k) k = none := by
  induction l with
  | nil => rfl
  | cons hd tl ih =>
    obtain ⟨k0, v0⟩ := hd
    unfold adel at ih ⊢
    by_cases h : k0 = k
    · rw [List.filter_cons_of_neg (by simp [h])]
      exact ih
    · rw [List.filter_cons_of_pos (by simp [h])]
      show (if k0 = k then some v0 else alookup (List.filter _ tl) k) = none
      rw [if_neg h]
      exact ih

theorem alookup_adel_ne (l : List (κ × β)) (k a : κ) (h : a ≠ k) :
    alookup (adel l k) a = alookup l a := by
  induction l with
  | nil => rfl
  | cons hd tl ih =>
    obtain ⟨k0, v0⟩ := hd
    unfold adel at ih ⊢
    by_cases hh : k0 = k
    · rw [List.filter_cons_of_neg (by simp [hh])]
      have h2 : ¬ (k0 = a) := by rw [hh]; exact fun he => h he.symm
      show alookup _ a = if k0 = a then some v0 else alookup tl a
      rw [if_neg h2]
      exact ih
    · rw [List.filter_cons_of_pos (by simp [hh])]
      show (if k0 = a then some v0 else alookup (List.filter _ tl) a) =
        if k0 = a then some v0 else alookup tl a
      by_cases ha : k0 = a
      · rw [if_pos ha, if_pos ha]
      · rw [if_neg ha, if_neg ha]; exact ih

theorem mem_of_alookup {l : List (κ × β)} {k : κ} {v : β}
    (h : alookup l k = some v) : (k, v) ∈ l := by
  induction l with
  | nil => simp [alookup] at h
  | cons hd tl ih =>
    obtain ⟨k0, v0⟩ := hd
    by_cases hh : k0 = k
    · simp [alookup, hh] at h
      rw [hh, h]
      exact List.mem_cons_self _ _
    · simp [alookup, hh] at h
      exact List.mem_cons_of_mem _ (ih h)

theorem alookup_eq_none_of_not_mem_keys {l : List (κ × β)} {k : κ}
    (h : k ∉ l.map Prod.fst) : alookup l k = none := by
  induction l with
  | nil => simp [alookup]
  | cons hd tl ih =>
    obtain ⟨k0, v0⟩ := hd
    simp at h
    have hh : ¬ (k0 = k) := fun he => h.1 he.symm
    simp [alookup, hh]
    exact ih (by simpa using h.2)

theorem alookup_filter_none {l : List (κ × β)} {k : κ} (f : κ × β → Bool)
    (h : alookup l k = none) : alookup (l.filter f) k = none := by
  induction l with
  | nil => rfl
  | cons hd tl ih =>
    obtain ⟨k0, v0⟩ := hd
    by_cases hh : k0 = k
    · simp [alookup, hh] at h
    · simp only [alookup, if_neg hh] at h
      cases hf : f (k0, v0) with
      | true =>
        rw [List.filter_cons_of_pos hf]
        show (if k0 = k then some v0 else alookup (List.filter f tl) k) = none
        rw [if_neg hh]
        exact ih h
      | false =>
        rw [List.filter_cons_of_neg (by simp [hf])]
        exact ih h

theorem alookup_filter_of_nodup (f : κ × β → Bool) (l : List (κ × β)) (k : κ) (v : β)
    (hnd : (l.map Prod.fst).Nodup) (h : alookup l k = some v) :
    alookup (l.filter f) k = if f (k, v) then some v else none := by
  induction l with
  | nil => simp [alookup] at h
  | cons hd tl ih =>
    obtain ⟨k0, v0⟩ := hd
    rw [List.map_cons, List.nodup_cons] at hnd
    by_cases hh : k0 = k
    · simp only [alookup, if_pos hh] at h
      have hv : v0 = v := by injection h
      have hnone : alookup tl k = none := by
        apply alookup_eq_none_of_not_mem_keys
        rw [← hh]; exact hnd.1
      subst hh; subst hv
      cases hf : f (k0, v0) with
      | true =>
        rw [List.filter_cons_of_pos hf]
        show (if k0 = k0 then some v0 else alookup (List.filter f tl) k0) = _
        rw [if_pos rfl]
        simp
      | false =>
        rw [List.filter_cons_of_neg (by simp [hf]), alookup_filter_none f hnone]
        simp
    · simp only [alookup, if_neg hh] at h
      cases hf : f (k0, v0) with
      | true =>
        rw [List.filter_cons_of_pos hf]
        show (if k0 = k then some v0 else alookup (List.filter f tl) k) = _
        rw [if_neg hh]
        exact ih hnd.2 h
      | false =>
        rw [List.filter_cons_of_neg (by simp [hf])]
        exact ih hnd.2 h

end AListLemmas

section StoreLemmas

theorem get?_set_self {α : Type} (l : List α) (i : Nat) (a : α) (h : i < l.length) :
    (l.set i a).get? i = some a := by
  induction l generalizing i with
  | nil => simp at h
  | cons hd tl ih =>
    cases i with
    | zero => simp
    | succ n => simpa using ih n (by simpa using h)

theorem get?_set_ne {α : Type} (l : List α) (i j : Nat) (a : α) (h : i ≠ j) :
    (l.set i a).get? j = l.get? j := by
  induction l generalizing i j with
  | nil => simp
  | cons hd tl ih =>
    cases i with
    | zero =>
      cases j with
      | zero => exact absurd rfl h
      | succ m => simp
    | succ n =>
      cases j with
      | zero => simp
      | succ m => simpa using ih n m (fun he => h (by rw [he]))

theorem get?_append_left {α : Type} (l1 l2 : List α) (i : Nat) (h : i < l1.length) :
    (l1 ++ l2).get? i = l1.get? i := by
  induction l1 generalizing i with
  | nil => simp at h
  | cons hd tl ih =>
    cases i with
    | zero => simp
    | succ n => simpa using ih n (by simpa using h)

theorem get?_append_length {α : Type} (l : List α) (a : α) :
    (l ++ [a]).get? l.length = some a := by
  induction l with
  | nil => simp
  | cons hd tl ih => simp [ih]

theorem lt_length_of_get?_eq_some {α : Type} {l : List α} {i : Nat} {a : α}
    (h : l.get? i = some a) : i < l.length := by
  cases hlt : decide (i < l.length) with
  | true => exact of_decide_eq_true hlt
  | false =>
    have hge : l.length ≤ i := Nat.le_of_not_lt (of_decide_eq_false hlt)
    rw [List.get?_eq_none.mpr hge] at h
    exact absurd h (by simp)

theorem modifyPC_get? (store : List PC) (i j : Nat) (f : PC → PC) :
    (modifyPC store i f).get? j =
      if j = i then (store.get? i).map f else store.get? j := by
  unfold modifyPC
  cases hg : store.get? i with
  | none =>
    by_cases h : j = i
    · subst h
      rw [if_pos rfl]
      exact hg
    · rw [if_neg h]
  | some pc =>
    by_cases h : j = i
    · subst h
      rw [get?_set_self _ _ _ (lt_length_of_get?_eq_some hg), if_pos rfl]
      rfl
    · rw [get?_set_ne _ _ _ _ (fun he => h he.symm)]
      rw [if_neg h]

theorem modifyPC_length (store : List PC) (i : Nat) (f : PC → PC) :
    (modifyPC store i f).length = store.length := by
  unfold modifyPC
  cases store.get? i <;> simp

theorem fold_close_get? (es : List (String × Nat)) (store : List PC) (i : Nat) :
    ((es.foldl (fun acc e => closePC acc e.2) store).get? i) =
      if i ∈ es.map Prod.snd then
        (store.get? i).map (fun pc => { pc with closed := true })
      else store.get? i := by
  induction es generalizing store with
  | nil => simp
  | cons hd tl ih =>
    have hstep : (closePC store hd.2).get? i =
        if i = hd.2 then (store.get? i).map (fun pc => { pc with closed := true })
        else store.get? i := by
      rw [closePC, modifyPC_get?]
      by_cases h : i = hd.2
      · subst h; simp
      · simp [h]
    simp only [List.foldl_cons, List.map_cons]
    rw [ih (closePC store hd.2), hstep]
    by_cases h1 : i = hd.2
    · have hm : i ∈ hd.2 :: tl.map Prod.snd := by rw [h1]; exact List.mem_cons_self _ _
      rw [if_pos hm, if_pos h1]
      by_cases h2 : i ∈ tl.map Prod.snd
      · rw [if_pos h2]
        cases store.get? i <;> rfl
      · rw [if_neg h2]
    · rw [if_neg h1]
      by_cases h2 : i ∈ tl.map Prod.snd
      · have hm : i ∈ hd.2 :: tl.map Prod.snd := List.mem_cons_of_mem _ h2
        rw [if_pos hm, if_pos h2]
      · have hm : i ∉ hd.2 :: tl.map Prod.snd := by
          intro hc
          rcases List.mem_cons.mp hc with hc1 | hc2
          · exact h1 hc1
          · exact h2 hc2
        rw [if_neg hm, if_neg h2]

end StoreLemmas

/-! Claim C10. -/

/-- C10: for every forwarded offer, answer, or ice-candidate, the
fromParticipantId delivered to the target is the identity the server's
registry associates with the sending socket, independent of any
sender-identity field the client may have included in the inbound message:
two inbound messages from the same socket differing only in the claimed
sender field produce identical results, and when the relay resolves, the
forwarded message carries the registry identity of the sending socket. -/
theorem C10_sender_identity_from_registry (sock : Nat) (tgt pl : String)
    (cf1 cf2 : Option String) (st : Server.ServerState) :
    Server.handleOffer sock tgt pl cf1 st = Server.handleOffer sock tgt pl cf2 st ∧
    Server.handleAnswer sock tgt pl cf1 st = Server.handleAnswer sock tgt pl cf2 st ∧
    Server.handleIceCandidate sock tgt pl cf1 st = Server.handleIceCandidate sock tgt pl cf2 st ∧
    (∀ p room tp, alookup st.participants sock = some p →
      alookup st.rooms p.roomId = some room →
      alookup room.participants tgt = some tp →
      Server.handleOffer sock tgt pl cf1 st =
        (st, [(tp.socket, Server.SMsg.offerMsg p.id pl)]) ∧
      Server.handleAnswer sock tgt pl cf1 st =
        (st, [(tp.socket, Server.SMsg.answerMsg p.id pl)]) ∧
      Server.handleIceCandidate sock tgt pl cf1 st =
        (st, [(tp.socket, Server.SMsg.iceMsg p.id pl)])) := by
  refine ⟨rfl, rfl, rfl, ?_⟩
  intro p room tp hp hr ht
  refine ⟨?_, ?_, ?_⟩ <;>
    simp [Server.handleOffer, Server.handleAnswer, Server.handleIceCandidate, hp, hr, ht]

/-- Witness for C10: a spoofed sender field on socket 1 changes nothing, and
the forwarded offer carries the registry identity p1. -/
theorem C10_witness :
    Server.handleOffer 1 "p2" "sdp" (some "spoofed") demoSrv =
      (demoSrv, [(2, Server.SMsg.offerMsg "p1" "sdp")]) ∧
    Server.handleOffer 1 "p2" "sdp" (some "spoofed") demoSrv =
      Server.handleOffer 1 "p2" "sdp" none demoSrv := by
  constructor
  · exact ((C10_sender_identity_from_registry 1 "p2" "sdp" (some "spoofed") none
      demoSrv).2.2.2 demoP1 demoRoom demoP2 (by decide) (by decide) (by decide)).1
  · exact (C10_sender_identity_from_registry 1 "p2" "sdp" (some "spoofed") none demoSrv).1

/-! Claim C5. -/

/-- C5: for every relayed offer, answer, or ice-candidate message, if the
sender's participant record, the sender's room, or the target participant
cannot be resolved, the server sends exactly one error reply to the sender
and forwards nothing with the state unchanged; otherwise it forwards the
payload verbatim to the target participant's socket, again with the state
unchanged. -/
theorem C5_relay_error_or_forward (sock : Nat) (tgt pl : String) (cf : Option String)
    (st : Server.ServerState) :
    (alookup st.participants sock = none →
      Server.handleOffer sock tgt pl cf st =
        (st, [(sock, Server.SMsg.errorMsg "Participant not found")]) ∧
      Server.handleAnswer sock tgt pl cf st =
        (st, [(sock, Server.SMsg.errorMsg "Participant not found")]) ∧
      Server.handleIceCandidate sock tgt pl cf st =
        (st, [(sock, Server.SMsg.errorMsg "Participant not found")])) ∧
    (∀ p, alookup st.participants sock = some p →
      alookup st.rooms p.roomId = none →
      Server.handleOffer sock tgt pl cf st =
        (st, [(sock, Server.SMsg.errorMsg "Room not found")]) ∧
      Server.handleAnswer sock tgt pl cf st =
        (st, [(sock, Server.SMsg.errorMsg "Room not found")]) ∧
      Server.handleIceCandidate sock tgt pl cf st =
        (st, [(sock, Server.SMsg.errorMsg "Room not found")])) ∧
    (∀ p room, alookup st.participants sock = some p →
      alookup st.rooms p.roomId = some room →
      alookup room.participants tgt = none →
      Server.handleOffer sock tgt pl cf st =
        (st, [(sock, Server.SMsg.errorMsg "Target participant not found")]) ∧
      Server.handleAnswer sock tgt pl cf st =
        (st, [(sock, Server.SMsg.errorMsg "Target participant not found")]) ∧
      Server.handleIceCandidate sock tgt pl cf st =
        (st, [(sock, Server.SMsg.errorMsg "Target participant not found")])) ∧
    (∀ p room tp, alookup st.participants sock = some p →
      alookup st.rooms p.roomId = some room →
      alookup room.participants tgt = some tp →
      Server.handleOffer sock tgt pl cf st =
        (st, [(tp.socket, Server.SMsg.offerMsg p.id pl)]) ∧
      Server.handleAnswer sock tgt pl cf st =
        (st, [(tp.socket, Server.SMsg.answerMsg p.id pl)]) ∧
      Server.handleIceCandidate sock tgt pl cf st =
        (st, [(tp.socket, Server.SMsg.iceMsg p.id pl)])) := by
  refine ⟨?_, ?_, ?_, ?_⟩ <;> intros <;>
    refine ⟨?_, ?_, ?_⟩ <;>
      simp [Server.handleOffer, Server.handleAnswer, Server.handleIceCandidate, *]

/-- Witness for C5: an unregistered socket gets an error reply and nothing
is forwarded; a registered socket's answer is forwarded to the target. -/
theorem C5_witness :
    Server.handleOffer 99 "p2" "sdp" none demoSrv =
      (demoSrv, [(99, Server.SMsg.errorMsg "Participant not found")]) ∧
    Server.handleAnswer 1 "p2" "a" none demoSrv =
      (demoSrv, [(2, Server.SMsg.answerMsg "p1" "a")]) := by
  constructor
  · exact ((C5_relay_error_or_forward 99 "p2" "sdp" none demoSrv).1 (by decide)).1
  · exact ((C5_relay_error_or_forward 1 "p2" "a" none demoSrv).2.2.2 demoP1 demoRoom demoP2
      (by decide) (by decide) (by decide)).2.1

/-! Claim C6. -/

/-- Counterexample for C6: in this trace the room R is created at time 0,
its only participant leaves at time 1860000 (31 minutes), and the sweep
runs at time 1920000 — only 60 seconds after the room became empty, far
under the 30-minute idle threshold — yet the sweep removes the room,
because the code measures idleness from the room's creation instant rather
than from the moment it became empty. -/
theorem C6_counterexample :
    Server.roomMembers (Server.runServer [.evJoin 0 1 "R" "p1" none]) "R" = ["p1"] ∧
    Server.roomMembers
      (Server.runServer [.evJoin 0 1 "R" "p1" none, .evDisconnect 1860000 1]) "R" = [] ∧
    (alookup (Server.runServer
      [.evJoin 0 1 "R" "p1" none, .evDisconnect 1860000 1]).rooms "R").isSome = true ∧
    1920000 - 1860000 < 30 * 60 * 1000 ∧
    alookup (Server.runServer
      [.evJoin 0 1 "R" "p1" none, .evDisconnect 1860000 1, .evSweep 1920000]).rooms "R" =
      none := by
  decide

/-- C6 (amended): the sweep removes a room exactly when it has zero
participants and more than 30 minutes have elapsed since the room's
creation (not since it became empty); in particular a room with at least
one participant is never removed, however old it is. -/
theorem C6_sweep_measures_age_from_creation (now : Nat) (st : Server.ServerState)
    (rid : String) (room : Server.Room)
    (hnd : (st.rooms.map Prod.fst).Nodup)
    (hr : alookup st.rooms rid = some room) :
    alookup (Server.sweep now st).rooms rid =
      (if room.participants.length = 0 ∧ 30 * 60 * 1000 < now - room.createdAt
       then none else some room) := by
  unfold Server.sweep
  show alookup (st.rooms.filter _) rid = _
  rw [alookup_filter_of_nodup _ _ _ _ hnd hr]
  by_cases h1 : room.participants.length = 0 <;>
    by_cases h2 : 30 * 60 * 1000 < now - room.createdAt <;>
      simp [Server.roomExpired, h1, h2]

/-- Witness for C6 (amended): room R of the demo state holds two
participants and survives a sweep at an arbitrarily late instant. -/
theorem C6_witness :
    alookup (Server.sweep 999999999 demoSrv).rooms "R" = some demoRoom := by
  have h := C6_sweep_measures_age_from_creation 999999999 demoSrv "R" demoRoom
    (by decide) (by decide)
  rw [h]
  decide

/-! Claim C9. -/

theorem broadcast_exclude_none (st : Server.ServerState) (rid : String) (msg : Server.SMsg)
    (room : Server.Room) (hr : alookup st.rooms rid = some room) :
    Server.broadcastToRoom st rid msg none =
      (room.participants.map Prod.snd).map (fun q => (q.socket, msg)) := by
  unfold Server.broadcastToRoom
  rw [hr]
  show (room.participants.map Prod.snd).filterMap
      (fun p => if (none : Option String) = some p.id then none else some (p.socket, msg)) = _
  induction room.participants.map Prod.snd with
  | nil => rfl
  | cons hd tl ih =>
    rw [List.filterMap_cons]
    have hif : (if (none : Option String) = some hd.id then none
        else some (hd.socket, msg)) = some (hd.socket, msg) := by simp
    rw [hif]
    show (hd.socket, msg) :: List.filterMap _ tl = _
    rw [List.map_cons, ih]

/-- C9: when a socket closes (or sends leave-room), a socket with no
associated participant is a strict no-op, while a socket whose participant
resolves to an existing room has that participant removed from the room's
map and from the global socket map, and a participant-left message carrying
the new membership count is sent to every remaining room member. -/
theorem C9_leave_cleanup (sock : Nat) (st : Server.ServerState) :
    (alookup st.participants sock = none → Server.handleDisconnect sock st = (st, [])) ∧
    (∀ p room, alookup st.participants sock = some p →
      alookup st.rooms p.roomId = some room →
      Server.handleDisconnect sock st =
        ({ rooms := aset st.rooms p.roomId { room with participants := adel room.participants p.id },
           participants := adel st.participants sock },
         ((adel room.participants p.id).map Prod.snd).map
           (fun q => (q.socket, Server.SMsg.participantLeft p.id
             (adel room.participants p.id).length))) ∧
      alookup (Server.handleDisconnect sock st).1.participants sock = none ∧
      alookup (aset st.rooms p.roomId { room with participants := adel room.participants p.id })
          p.roomId = some { room with participants := adel room.participants p.id } ∧
      alookup (adel room.participants p.id) p.id = none) ∧
    Server.handleLeaveRoom sock st = Server.handleDisconnect sock st := by
  refine ⟨?_, ?_, rfl⟩
  · intro h
    simp [Server.handleDisconnect, h]
  · intro p room hp hr
    have heq : Server.handleDisconnect sock st =
        ({ rooms := aset st.rooms p.roomId { room with participants := adel room.participants p.id },
           participants := adel st.participants sock },
         ((adel room.participants p.id).map Prod.snd).map
           (fun q => (q.socket, Server.SMsg.participantLeft p.id
             (adel room.participants p.id).length))) := by
      simp only [Server.handleDisconnect, hp, hr]
      rw [broadcast_exclude_none _ _ _ { room with participants := adel room.participants p.id }
        (by exact alookup_aset_self _ _ _)]
    refine ⟨heq, ?_, alookup_aset_self _ _ _, alookup_adel_self _ _⟩
    rw [heq]
    exact alookup_adel_self _ _

/-- Witness for C9: socket 3 is unknown and its disconnect is a no-op;
socket 1 is p1 in room R, whose disconnect removes p1 everywhere and sends
participant-left with count 1 to the remaining member p2 on socket 2. -/
theorem C9_witness :
    Server.handleDisconnect 3 demoSrv = (demoSrv, []) ∧
    Server.handleDisconnect 1 demoSrv =
      ({ rooms := [("R", { id := "R", participants := [("p2", demoP2)], createdAt := 0 })],
         participants := [(2, demoP2)] },
       [(2, Server.SMsg.participantLeft "p1" 1)]) := by
  constructor
  · exact (C9_leave_cleanup 3 demoSrv).1 (by decide)
  · have h := ((C9_leave_cleanup 1 demoSrv).2.1 demoP1 demoRoom (by decide) (by decide)).1
    exact h.trans (by decide)

/-! Claim C3. -/

/-- Counterexample for C3: the very first joiner of a fresh room receives
only the joined-room ack; no existing-participants message with an empty
list is sent to it. -/
theorem C3_counterexample :
    (Server.handleJoinRoom 1 0 "R1" "p1" none { rooms := [], participants := [] }).2 =
      [(1, Server.SMsg.joinedRoom "R1" "p1" 1)] ∧
    (1, Server.SMsg.existingParticipants []) ∉
      (Server.handleJoinRoom 1 0 "R1" "p1" none { rooms := [], participants := [] }).2 := by
  decide

theorem filter_snd_replace (l : List (String × Server.Participant)) (pid : String)
    (p : Server.Participant) (hkc : ∀ kv ∈ l, kv.2.id = kv.1) (hp : p.id = pid) :
    ((l.map (fun q => if q.1 = pid then (pid, p) else q)).map Prod.snd).filter
        (fun q => decide (q.id ≠ pid)) =
      (l.map Prod.snd).filter (fun q => decide (q.id ≠ pid)) := by
  induction l with
  | nil => rfl
  | cons hd tl ih =>
    obtain ⟨k0, v0⟩ := hd
    have hkc0 : v0.id = k0 := hkc (k0, v0) (List.mem_cons_self _ _)
    have ihtl := ih (fun kv hkv => hkc kv (List.mem_cons_of_mem _ hkv))
    rw [List.map_cons]
    show (((if k0 = pid then (pid, p) else (k0, v0)) :: _).map Prod.snd).filter _ = _
    by_cases h : k0 = pid
    · rw [if_pos h, List.map_cons, List.map_cons]
      rw [List.filter_cons_of_neg (by simp [hp]),
        List.filter_cons_of_neg (by simp [hkc0, h])]
      exact ihtl
    · rw [if_neg h, List.map_cons, List.map_cons]
      have hv : ¬ (v0.id = pid) := by rw [hkc0]; exact h
      rw [List.filter_cons_of_pos (by simp [hv]), List.filter_cons_of_pos (by simp [hv])]
      rw [ihtl]

theorem filter_snd_append (l : List (String × Server.Participant)) (pid : String)
    (p : Server.Participant) (hp : p.id = pid) :
    (((l ++ [(pid, p)]).map Prod.snd).filter (fun q => decide (q.id ≠ pid))) =
      ((l.map Prod.snd).filter (fun q => decide (q.id ≠ pid))) := by
  rw [List.map_append, List.filter_append]
  simp [hp]

theorem filter_snd_aset (l : List (String × Server.Participant)) (pid : String)
    (p : Server.Participant) (hkc : ∀ kv ∈ l, kv.2.id = kv.1) (hp : p.id = pid) :
    ((aset l pid p).map Prod.snd).filter (fun q => decide (q.id ≠ pid)) =
      (l.map Prod.snd).filter (fun q => decide (q.id ≠ pid)) := by
  unfold aset
  by_cases hs : (alookup l pid).isSome
  · rw [if_pos hs]; exact filter_snd_replace l pid p hkc hp
  · rw [if_neg hs]; exact filter_snd_append l pid p hp

theorem existingMsgs_broadcast_joined (st : Server.ServerState) (rid pid : String)
    (nm : Option String) (cnt : Nat) (ex : Option String) :
    Server.existingMsgs
      (Server.broadcastToRoom st rid (Server.SMsg.participantJoined pid nm cnt) ex) = [] := by
  unfold Server.existingMsgs Server.broadcastToRoom
  cases alookup st.rooms rid with
  | none => rfl
  | some room =>
    show ((room.participants.map Prod.snd).filterMap
        (fun p => if ex = some p.id then none
          else some (p.socket, Server.SMsg.participantJoined pid nm cnt))).filter _ = []
    induction room.participants.map Prod.snd with
    | nil => rfl
    | cons hd tl ih =>
      by_cases h : ex = some hd.id
      · rw [List.filterMap_cons]
        have hif : (if ex = some hd.id then none
            else some (hd.socket, Server.SMsg.participantJoined pid nm cnt)) = none := by
          simp [h]
        rw [hif]
        exact ih
      · rw [List.filterMap_cons]
        have hif : (if ex = some hd.id then none
            else some (hd.socket, Server.SMsg.participantJoined pid nm cnt)) =
              some (hd.socket, Server.SMsg.participantJoined pid nm cnt) := by
          simp [h]
        rw [hif]
        show List.filter _
          ((hd.socket, Server.SMsg.participantJoined pid nm cnt) :: List.filterMap _ tl) = []
        rw [List.filter_cons_of_neg (by simp)]
        exact ih

theorem existingMsgs_cons_joined (s : Nat) (a b : String) (c : Nat)
    (l : List (Nat × Server.SMsg)) :
    Server.existingMsgs ((s, Server.SMsg.joinedRoom a b c) :: l) = Server.existingMsgs l := by
  unfold Server.existingMsgs
  rw [List.filter_cons_of_neg (by simp)]

theorem existingMsgs_append (l1 l2 : List (Nat × Server.SMsg)) :
    Server.existingMsgs (l1 ++ l2) = Server.existingMsgs l1 ++ Server.existingMsgs l2 := by
  unfold Server.existingMsgs
  rw [List.filter_append]

/-- C3 (amended): the membership snapshot sent to a joiner lists exactly
the prior participants of the room still present at that instant (any stale
entry under the joiner's own id excluded); but when that list is empty — in
particular for the first joiner of a fresh room — no existing-participants
message is sent at all. -/
theorem C3_snapshot_exact_or_absent (sock now : Nat) (rid pid : String)
    (nm : Option String) (st : Server.ServerState)
    (hkc : Server.KeyConsistentRoom st rid) :
    Server.existingMsgs (Server.handleJoinRoom sock now rid pid nm st).2 =
      (if (Server.priorOthers st rid pid).isEmpty then []
       else [(sock, Server.SMsg.existingParticipants (Server.priorOthers st rid pid))]) := by
  cases hroom : alookup st.rooms rid with
  | none =>
    simp only [Server.handleJoinRoom, hroom]
    rw [existingMsgs_append, existingMsgs_cons_joined,
      existingMsgs_broadcast_joined, List.nil_append]
    simp [Server.priorOthers, hroom, Server.existingMsgs, aset, alookup]
  | some room =>
    have hkc' : ∀ kv ∈ room.participants, kv.2.id = kv.1 := by
      unfold Server.KeyConsistentRoom at hkc
      rw [hroom] at hkc
      exact hkc
    simp only [Server.handleJoinRoom, hroom]
    rw [existingMsgs_append, existingMsgs_cons_joined,
      existingMsgs_broadcast_joined, List.nil_append]
    rw [filter_snd_aset room.participants pid
      { id := pid, socket := sock, roomId := rid, name := nm } hkc' rfl]
    simp only [Server.priorOthers, hroom]
    cases hE : (room.participants.map Prod.snd).filter (fun q => decide (q.id ≠ pid)) with
    | nil => simp [Server.existingMsgs]
    | cons e es => simp [Server.existingMsgs]

/-- Witness for C3 (amended): p3 joining the demo room receives the
snapshot listing exactly p1 and p2. -/
theorem C3_witness :
    Server.existingMsgs (Server.handleJoinRoom 3 5 "R" "p3" none demoSrv).2 =
      [(3, Server.SMsg.existingParticipants [("p1", none), ("p2", none)])] := by
  have h := C3_snapshot_exact_or_absent 3 5 "R" "p3" none demoSrv
    (by intro kv hkv; fin_cases hkv <;> rfl)
  rw [h]
  decide

/-! Claim C1. -/

/-- Counterexample for C1: in the WebSocket hook, with endpoint A (id a)
already in the room and endpoint B (id b, lexicographically greater)
joining, A's participant-joined handler produces no offer and B's
existing-participants handler produces the single offer of the pair,
directed from B to A — so the pair's one offer originates at the higher id,
contradicting the claimed lower-id-offers rule. -/
theorem C1_counterexample :
    ("a" : String) < "b" ∧
    countOffersTo (SFU.onParticipantJoined "b" none demoClientA).sent "b" = 0 ∧
    (SFU.onParticipantJoined "b" none demoClientA).sent = [] ∧
    countOffersTo
      (SFU.onExistingParticipants [("a", none)] (some [1]) (fun _ => "sdpB")
        demoClientB).sent "a" = 1 := by
  exact ⟨String.lt_iff_toList_lt.mpr (by decide), by decide, by decide, by decide⟩

theorem Supa_closeExisting_sent (pid : String) (st : Supa.SState) :
    (Supa.closeExisting pid st).sent = st.sent := by
  unfold Supa.closeExisting
  cases alookup st.table pid <;> rfl

theorem Supa_createOffer_sent (pid : String) (trs : List Nat) (sdp : String)
    (st : Supa.SState) :
    (Supa.createOfferForParticipant pid (some trs) sdp st).sent =
      st.sent ++ [SupaOut.offerOut pid st.selfId sdp] := by
  simp only [Supa.createOfferForParticipant, Supa.createPeerConnection, Option.orElse]
  rw [Supa_closeExisting_sent]

theorem SFU_closeExisting_sent (pid : String) (st : SFU.CState) :
    (SFU.closeExisting pid st).sent = st.sent := by
  unfold SFU.closeExisting
  cases alookup st.table pid <;> rfl

theorem SFU_createOffer_sent (pid : String) (trs : List Nat) (sdp : String)
    (st : SFU.CState) :
    (SFU.createOfferForParticipant pid (some trs) sdp st).sent =
      st.sent ++ [ClientOut.offerOut pid sdp] := by
  simp only [SFU.createOfferForParticipant, SFU.createPeerConnection, Option.orElse]
  rw [SFU_closeExisting_sent]

theorem SFU_foldl_offers_sent (ps : List (String × Option String)) (trs : List Nat)
    (sdpFor : String → String) (st : SFU.CState) :
    (ps.foldl (fun s r => SFU.createOfferForParticipant r.1 (some trs) (sdpFor r.1) s)
        st).sent =
      st.sent ++ ps.map (fun r => ClientOut.offerOut r.1 (sdpFor r.1)) := by
  induction ps generalizing st with
  | nil => simp
  | cons r rs ih =>
    rw [List.foldl_cons, ih, SFU_createOffer_sent, List.map_cons, List.append_assoc,
      List.singleton_append]

theorem countOffersTo_append (l1 l2 : List ClientOut) (tgt : String) :
    countOffersTo (l1 ++ l2) tgt = countOffersTo l1 tgt + countOffersTo l2 tgt := by
  unfold countOffersTo
  rw [List.filter_append, List.length_append]

theorem countOffersTo_map_offers (ps : List (String × Option String))
    (sdpFor : String → String) (tgt : String) :
    countOffersTo (ps.map (fun r => ClientOut.offerOut r.1 (sdpFor r.1))) tgt =
      (ps.filter (fun r => decide (r.1 = tgt))).length := by
  induction ps with
  | nil => rfl
  | cons r rs ih =>
    unfold countOffersTo at ih ⊢
    by_cases h : r.1 = tgt
    · rw [List.map_cons, List.filter_cons_of_pos (by simp [h]),
        List.filter_cons_of_pos (by simp [h])]
      simp only [List.length_cons]
      rw [ih]
    · rw [List.map_cons, List.filter_cons_of_neg (by simp [h]),
        List.filter_cons_of_neg (by simp [h])]
      exact ih

theorem filter_key_singleton (ps : List (String × Option String)) (p2 : String)
    (pn2 : Option String) (hnd : (ps.map Prod.fst).Nodup) (hm : (p2, pn2) ∈ ps) :
    (ps.filter (fun r => decide (r.1 = p2))).length = 1 := by
  induction ps with
  | nil => simp at hm
  | cons r rs ih =>
    rw [List.map_cons, List.nodup_cons] at hnd
    rcases List.mem_cons.mp hm with hm1 | hm2
    · have hr1 : r.1 = p2 := by rw [← hm1]
      rw [List.filter_cons_of_pos (by simp [hr1])]
      have hempty : rs.filter (fun r => decide (r.1 = p2)) = [] := by
        apply List.filter_eq_nil_iff.mpr
        intro x hx
        simp only [decide_eq_true_eq]
        intro hxe
        exact hnd.1 (by rw [hr1, ← hxe]; exact List.mem_map.mpr ⟨x, hx, rfl⟩)
      rw [hempty]
      rfl
    · have hr1 : ¬ (r.1 = p2) := by
        intro he
        exact hnd.1 (by rw [he]; exact List.mem_map.mpr ⟨(p2, pn2), hm2, rfl⟩)
      rw [List.filter_cons_of_neg (by simp [hr1])]
      exact ih hnd.2 hm2

/-- C1 (amended): exactly one offer is produced per pair, but the role rule
differs by hook.  In the presence hook, when each of two endpoints observes
the other's join, the endpoint whose own id sorts lower sends exactly one
offer to the other and the higher endpoint sends nothing.  In the WebSocket
hook, the observer of participant-joined never offers, and the new joiner's
existing-participants handler sends exactly one offer to each participant
of the received list (the new messages are precisely one offer per listed
entry, and for a duplicate-free list each listed participant is targeted by
exactly one new offer) — the offer direction is joiner-to-existing
regardless of id order. -/
theorem C1_offer_roles (a b : String) (hab : a < b)
    (stA stB : Supa.SState) (ha : stA.selfId = a) (hb : stB.selfId = b)
    (trsA trsB : List Nat) (sa sb : String)
    (cS : SFU.CState) (q : String) (nm : Option String)
    (ps : List (String × Option String)) (trs : List Nat) (sdpFor : String → String) :
    (Supa.onPresenceJoin b trsA sa stA).sent = stA.sent ++ [SupaOut.offerOut b a sa] ∧
    (Supa.onPresenceJoin a trsB sb stB).sent = stB.sent ∧
    (SFU.onParticipantJoined q nm cS).sent = cS.sent ∧
    (SFU.onExistingParticipants ps (some trs) sdpFor cS).sent =
      cS.sent ++ ps.map (fun r => ClientOut.offerOut r.1 (sdpFor r.1)) ∧
    (∀ tgt, countOffersTo (SFU.onExistingParticipants ps (some trs) sdpFor cS).sent tgt =
      countOffersTo cS.sent tgt + (ps.filter (fun r => decide (r.1 = tgt))).length) ∧
    ((ps.map Prod.fst).Nodup → ∀ p2 pn2, (p2, pn2) ∈ ps →
      countOffersTo (SFU.onExistingParticipants ps (some trs) sdpFor cS).sent p2 =
        countOffersTo cS.sent p2 + 1) := by
  have h4 : (SFU.onExistingParticipants ps (some trs) sdpFor cS).sent =
      cS.sent ++ ps.map (fun r => ClientOut.offerOut r.1 (sdpFor r.1)) := by
    simp only [SFU.onExistingParticipants]
    rw [SFU_foldl_offers_sent]
  refine ⟨?_, ?_, rfl, h4, ?_, ?_⟩
  · have h1 : ¬ (b = stA.selfId) := by rw [ha]; exact (ne_of_lt hab).symm
    have h2 : stA.selfId < b := by rw [ha]; exact hab
    rw [Supa.onPresenceJoin, if_neg h1, if_pos h2, Supa_createOffer_sent, ha]
  · have h1 : ¬ (a = stB.selfId) := by rw [hb]; exact ne_of_lt hab
    have h2 : ¬ (stB.selfId < a) := by rw [hb]; exact lt_asymm hab
    rw [Supa.onPresenceJoin, if_neg h1, if_neg h2]
  · intro tgt
    rw [h4, countOffersTo_append, countOffersTo_map_offers]
  · intro hnd p2 pn2 hm
    rw [h4, countOffersTo_append, countOffersTo_map_offers,
      filter_key_singleton ps p2 pn2 hnd hm]

/-- Witness for C1 (amended): concrete endpoints with ids a and b for the
presence hook, and a two-element existing-participants list for the
WebSocket hook, each listed peer receiving exactly one offer. -/
theorem C1_witness :
    (Supa.onPresenceJoin "b" [0] "sa" demoSupaA).sent = [SupaOut.offerOut "b" "a" "sa"] ∧
    (Supa.onPresenceJoin "a" [1] "sb" demoSupaB).sent = [] ∧
    (SFU.onExistingParticipants [("x", none), ("y", none)] (some [1]) (fun _ => "s")
        demoClientB).sent =
      [ClientOut.offerOut "x" "s", ClientOut.offerOut "y" "s"] ∧
    countOffersTo (SFU.onExistingParticipants [("x", none), ("y", none)] (some [1])
        (fun _ => "s") demoClientB).sent "x" = 1 ∧
    countOffersTo (SFU.onExistingParticipants [("x", none), ("y", none)] (some [1])
        (fun _ => "s") demoClientB).sent "y" = 1 := by
  have h := C1_offer_roles "a" "b" (String.lt_iff_toList_lt.mpr (by decide))
    demoSupaA demoSupaB rfl rfl
    [0] [1] "sa" "sb" demoClientB "q" none [("x", none), ("y", none)] [1] (fun _ => "s")
  refine ⟨h.1, h.2.1, h.2.2.2.1.trans (by decide), ?_, ?_⟩
  · exact (h.2.2.2.2.2 (by decide) "x" none (by decide)).trans (by decide)
  · exact (h.2.2.2.2.2 (by decide) "y" none (by decide)).trans (by decide)

/-! Claim C2. -/

/-- Counterexample for C2: after creating an offer toward peer p (handle
exists, remote description not yet applied), a candidate that arrives
before the answer is lost — the transport rejects it and no client-side
queue exists — whereas the same candidate arriving after the answer is
applied; the two arrival orders end in different applied sequences. -/
theorem C2_counterexample :
    (let st := SFU.createOfferForParticipant "p" (some [0]) "offerSdp" demoClientA
     let sA := SFU.handleAnswer "p" "ans" (SFU.handleIceCandidate "p" "c1" st)
     let sB := SFU.handleIceCandidate "p" "c1" (SFU.handleAnswer "p" "ans" st)
     ((alookup sA.table "p").bind (fun i => sA.store.get? i)).map PC.applied = some [] ∧
     ((alookup sB.table "p").bind (fun i => sB.store.get? i)).map PC.applied = some ["c1"] ∧
     sA ≠ sB) := by
  decide

/-- C2 (amended): in both hooks, an ICE candidate received for a peer id
whose handle exists is handed to the transport immediately: it is appended
to the applied sequence when the remote description is already set, and it
is rejected and lost when the remote description is not yet set — no
buffering or flush-on-description occurs; a candidate for a missing handle
is discarded. -/
theorem C2_no_ice_queue (pid c : String) (st : SFU.CState) (sst : Supa.SState) :
    (∀ i pc, alookup st.table pid = some i → st.store.get? i = some pc →
      SFU.handleIceCandidate pid c st =
        (if pc.remoteDesc.isSome then
           { st with store := st.store.set i { pc with applied := pc.applied ++ [c] } }
         else st)) ∧
    (alookup st.table pid = none → SFU.handleIceCandidate pid c st = st) ∧
    (∀ i pc, alookup sst.table pid = some i → sst.store.get? i = some pc →
      Supa.handleIceCandidate pid c sst =
        (if pc.remoteDesc.isSome then
           { sst with store := sst.store.set i { pc with applied := pc.applied ++ [c] } }
         else sst)) ∧
    (alookup sst.table pid = none → Supa.handleIceCandidate pid c sst = sst) := by
  refine ⟨?_, ?_, ?_, ?_⟩
  · intro i pc hi hpc
    rw [List.get?_eq_getElem?] at hpc
    by_cases hrd : pc.remoteDesc.isSome <;>
      simp [SFU.handleIceCandidate, addIceCandidate, hi, hpc, hrd]
  · intro h
    simp [SFU.handleIceCandidate, h]
  · intro i pc hi hpc
    rw [List.get?_eq_getElem?] at hpc
    by_cases hrd : pc.remoteDesc.isSome <;>
      simp [Supa.handleIceCandidate, addIceCandidate, hi, hpc, hrd]
  · intro h
    simp [Supa.handleIceCandidate, h]

/-- Witness for C2 (amended): in the mid-call demo state the remote
description is set, so a candidate is applied immediately in arrival
order. -/
theorem C2_witness :
    SFU.handleIceCandidate "p" "c1" demoSFUMid =
      { demoSFUMid with
        store := [{ peer := "p", localDesc := some "o", remoteDesc := some "a",
                    applied := ["c1"], tracks := [0], closed := false }] } := by
  have h := (C2_no_ice_queue "p" "c1" demoSFUMid demoSupaMid).1 0
    { peer := "p", localDesc := some "o", remoteDesc := some "a",
      applied := [], tracks := [0], closed := false }
    (by decide) (by decide)
  exact h.trans (by decide)

/-! Claim C4. -/

theorem atMostOne_of_tableLive (st : SFU.CState) (h : TableLive st) : AtMostOneLive st := by
  intro i j pci pcj hi hj hci hcj hpeer
  have h1 := h i pci hi hci
  have h2 := h j pcj hj hcj
  rw [hpeer] at h1
  rw [h1] at h2
  exact Option.some.inj h2

theorem tableLive_closeExisting (pid : String) (st : SFU.CState) (h : TableLive st) :
    TableLive (SFU.closeExisting pid st) ∧
    (∀ i pc, (SFU.closeExisting pid st).store.get? i = some pc → pc.closed = false →
      pc.peer ≠ pid) := by
  unfold SFU.closeExisting
  cases ht : alookup st.table pid with
  | none =>
    refine ⟨h, ?_⟩
    intro i pc hi hc hpe
    have h0 := h i pc hi hc
    rw [hpe, ht] at h0
    exact Option.noConfusion h0
  | some k =>
    constructor
    · intro i pc hi hc
      have hi' : (closePC st.store k).get? i = some pc := hi
      rw [closePC, modifyPC_get?] at hi'
      by_cases hik : i = k
      · rw [if_pos hik] at hi'
        cases hs : st.store.get? k with
        | none => rw [hs] at hi'; exact Option.noConfusion hi'
        | some pc0 =>
          rw [hs] at hi'
          injection hi' with hi'
          rw [← hi'] at hc
          simp at hc
      · rw [if_neg hik] at hi'
        have h0 := h i pc hi' hc
        have hne : pc.peer ≠ pid := by
          intro he
          rw [he, ht] at h0
          injection h0 with h0
          exact hik h0.symm
        show alookup (adel st.table pid) pc.peer = some i
        rw [alookup_adel_ne _ _ _ hne]
        exact h0
    · intro i pc hi hc hpe
      have hi' : (closePC st.store k).get? i = some pc := hi
      rw [closePC, modifyPC_get?] at hi'
      by_cases hik : i = k
      · rw [if_pos hik] at hi'
        cases hs : st.store.get? k with
        | none => rw [hs] at hi'; exact Option.noConfusion hi'
        | some pc0 =>
          rw [hs] at hi'
          injection hi' with hi'
          rw [← hi'] at hc
          simp at hc
      · rw [if_neg hik] at hi'
        have h0 := h i pc hi' hc
        rw [hpe, ht] at h0
        injection h0 with h0
        exact hik h0.symm

theorem tableLive_createPC (pid : String) (st : SFU.CState) (h : TableLive st)
    (hnl : ∀ i pc, st.store.get? i = some pc → pc.closed = false → pc.peer ≠ pid) :
    TableLive (SFU.createPeerConnection pid st).2 := by
  intro i pc hi hc
  have hi' : (st.store ++ [({ peer := pid,
                              localDesc := none,
                              remoteDesc := none,
                              applied := [],
                              tracks := [],
                              closed := false } : PC)]).get? i = some pc := hi
  show alookup (aset st.table pid st.store.length) pc.peer = some i
  by_cases hil : i < st.store.length
  · rw [get?_append_left _ _ _ hil] at hi'
    have h0 := h i pc hi' hc
    have hne := hnl i pc hi' hc
    rw [alookup_aset_ne _ _ _ _ hne]
    exact h0
  · have hlt : i < st.store.length + 1 := by
      have hx := lt_length_of_get?_eq_some hi'
      simpa using hx
    have heq : i = st.store.length :=
      Nat.le_antisymm (Nat.lt_succ_iff.mp hlt) (Nat.le_of_not_lt hil)
    subst heq
    rw [get?_append_length] at hi'
    injection hi' with hi'
    rw [← hi']
    exact alookup_aset_self _ _ _

theorem tableLive_modify (st : SFU.CState) (i : Nat) (f : PC → PC)
    (hf : ∀ pc, (f pc).peer = pc.peer ∧ (f pc).closed = pc.closed)
    (h : TableLive st) :
    TableLive { st with store := modifyPC st.store i f } := by
  intro j pc hj hc
  have hj' : (modifyPC st.store i f).get? j = some pc := hj
  rw [modifyPC_get?] at hj'
  show alookup st.table pc.peer = some j
  by_cases hji : j = i
  · rw [if_pos hji] at hj'
    cases hs : st.store.get? i with
    | none => rw [hs] at hj'; exact Option.noConfusion hj'
    | some pc0 =>
      rw [hs] at hj'
      injection hj' with hj'
      have hcl : pc0.closed = false := by
        rw [← (hf pc0).2, hj']
        exact hc
      have h0 := h i pc0 hs hcl
      rw [← hj', (hf pc0).1, hji]
      exact h0
  · rw [if_neg hji] at hj'
    exact h j pc hj' hc

theorem tableLive_set_sent (st : SFU.CState) (s : List ClientOut) (h : TableLive st) :
    TableLive { st with sent := s } :=
  h

theorem tableLive_createOffer (pid : String) (stream : Option (List Nat)) (sdp : String)
    (st : SFU.CState) (hI : TableLive st) :
    TableLive (SFU.createOfferForParticipant pid stream sdp st) := by
  unfold SFU.createOfferForParticipant
  cases hs : stream.orElse (fun _ => st.localStream) with
  | none => exact hI
  | some trs =>
    exact tableLive_set_sent _ _
      (tableLive_modify _ _ _ (fun pc => ⟨rfl, rfl⟩)
        (tableLive_modify _ _ _ (fun pc => ⟨rfl, rfl⟩)
          (tableLive_createPC pid _ (tableLive_closeExisting pid st hI).1
            (tableLive_closeExisting pid st hI).2)))

theorem tableLive_handleOffer (pid off : String) (stream : Option (List Nat)) (ans : String)
    (st : SFU.CState) (hI : TableLive st) :
    TableLive (SFU.handleOffer pid off stream ans st) := by
  unfold SFU.handleOffer
  cases hs : stream.orElse (fun _ => st.localStream) with
  | none =>
    exact tableLive_set_sent _ _
      (tableLive_modify _ _ _ (fun pc => ⟨rfl, rfl⟩)
        (tableLive_modify _ _ _ (fun pc => ⟨rfl, rfl⟩)
          (tableLive_createPC pid _ (tableLive_closeExisting pid st hI).1
            (tableLive_closeExisting pid st hI).2)))
  | some trs =>
    exact tableLive_set_sent _ _
      (tableLive_modify _ _ _ (fun pc => ⟨rfl, rfl⟩)
        (tableLive_modify _ _ _ (fun pc => ⟨rfl, rfl⟩)
          (tableLive_modify _ _ _ (fun pc => ⟨rfl, rfl⟩)
            (tableLive_createPC pid _ (tableLive_closeExisting pid st hI).1
              (tableLive_closeExisting pid st hI).2))))

/-- C4: on the WebSocket hook, both creating an offer for a peer and
handling an incoming offer from that peer preserve the invariant that every
live handle is registered in the table under its peer id, hence at most one
live peer-transport handle exists per remote participant id at any time;
moreover any pre-existing handle for that id is closed (and its table entry
replaced) before the new handle is created. -/
theorem C4_at_most_one_live_handle (st : SFU.CState) (hI : TableLive st) (pid : String)
    (stream : Option (List Nat)) (sdp off ans : String) :
    TableLive (SFU.createOfferForParticipant pid stream sdp st) ∧
    AtMostOneLive (SFU.createOfferForParticipant pid stream sdp st) ∧
    TableLive (SFU.handleOffer pid off stream ans st) ∧
    AtMostOneLive (SFU.handleOffer pid off stream ans st) ∧
    (∀ h pc, alookup st.table pid = some h → st.store.get? h = some pc →
      (SFU.handleOffer pid off stream ans st).store.get? h = some { pc with closed := true } ∧
      (∀ trs, stream.orElse (fun _ => st.localStream) = some trs →
        (SFU.createOfferForParticipant pid stream sdp st).store.get? h =
          some { pc with closed := true })) := by
  refine ⟨tableLive_createOffer pid stream sdp st hI,
    atMostOne_of_tableLive _ (tableLive_createOffer pid stream sdp st hI),
    tableLive_handleOffer pid off stream ans st hI,
    atMostOne_of_tableLive _ (tableLive_handleOffer pid off stream ans st hI), ?_⟩
  intro h pc hth hpch
  have hhlt : h < st.store.length := lt_length_of_get?_eq_some hpch
  have hn : h ≠ (closePC st.store h).length := by
    rw [closePC, modifyPC_length]
    exact Nat.ne_of_lt hhlt
  have hltc : h < (closePC st.store h).length := by
    rw [closePC, modifyPC_length]
    exact hhlt
  have hcl : (closePC st.store h).get? h = some { pc with closed := true } := by
    rw [closePC, modifyPC_get?, if_pos rfl, hpch]
    rfl
  constructor
  · simp only [SFU.handleOffer, SFU.createPeerConnection, SFU.closeExisting, hth]
    cases hs : stream.orElse (fun _ => st.localStream) with
    | none =>
      simp only [hs]
      rw [modifyPC_get?, if_neg hn, modifyPC_get?, if_neg hn,
        get?_append_left _ _ _ hltc, hcl]
    | some trs =>
      simp only [hs]
      rw [modifyPC_get?, if_neg hn, modifyPC_get?, if_neg hn, modifyPC_get?, if_neg hn,
        get?_append_left _ _ _ hltc, hcl]
  · intro trs hs
    simp only [SFU.createOfferForParticipant, SFU.createPeerConnection, SFU.closeExisting,
      hth, hs]
    rw [modifyPC_get?, if_neg hn, modifyPC_get?, if_neg hn,
      get?_append_left _ _ _ hltc, hcl]

/-- Witness for C4: starting from the mid-call demo state (invariant
holds), re-offering to peer p closes the old handle 0 and registers the new
handle 1. -/
theorem C4_witness :
    (SFU.handleOffer "p" "o2" (some [0]) "a2" demoSFUMid).store.get? 0 =
      some { peer := "p", localDesc := some "o", remoteDesc := some "a", applied := [],
             tracks := [0], closed := true } ∧
    AtMostOneLive (SFU.handleOffer "p" "o2" (some [0]) "a2" demoSFUMid) := by
  have hI : TableLive demoSFUMid := by
    intro i pc hi hc
    cases i with
    | zero =>
      injection hi with hi
      rw [← hi]
      rfl
    | succ n =>
      cases n <;> exact Option.noConfusion hi
  have h := C4_at_most_one_live_handle demoSFUMid hI "p" (some [0]) "s" "o2" "a2"
  exact ⟨(h.2.2.2.2 0 ({ peer := "p",
                         localDesc := some "o",
                         remoteDesc := some "a",
                         applied := [],
                         tracks := [0],
                         closed := false } : PC) (by decide) (by decide)).1,
    h.2.2.2.1⟩

/-! Claim C7. -/

/-- Counterexample for C7: from a connected state with one live handle and
an unstopped capture track, the server-observed socket-close handler only
clears the connected flag — the handle stays live and the track stays
unstopped, so not every exit path releases resources. -/
theorem C7_counterexample :
    (SFU.wsOnClose (SFU.createOfferForParticipant "p" (some [0]) "o" demoClientA)).connected
        = false ∧
    ((SFU.wsOnClose (SFU.createOfferForParticipant "p" (some [0]) "o"
        demoClientA)).store.get? 0).map PC.closed = some false ∧
    (SFU.wsOnClose (SFU.createOfferForParticipant "p" (some [0]) "o" demoClientA)).media
        = [(0, false)] ∧
    (SFU.wsOnClose (SFU.createOfferForParticipant "p" (some [0]) "o" demoClientA)).localStream
        = some [0] := by
  decide

/-- C7 (amended): the explicit hang-up path releases everything — after
disconnect every handle in the store is closed, the table is empty, every
track of the current local stream is stopped and the stream is dropped —
but the server-observed socket-close path releases nothing: its handler
only clears the connected flag. -/
theorem C7_release_paths (st : SFU.CState) (hI : TableLive st) :
    (∀ i pc, (SFU.disconnect st).store.get? i = some pc → pc.closed = true) ∧
    (SFU.disconnect st).table = [] ∧
    (SFU.disconnect st).localStream = none ∧
    (SFU.disconnect st).connected = false ∧
    (∀ ids tid b, st.localStream = some ids → (tid, b) ∈ (SFU.disconnect st).media →
      tid ∈ ids → b = true) ∧
    SFU.wsOnClose st = { st with connected := false } := by
  refine ⟨?_, rfl, rfl, rfl, ?_, rfl⟩
  · intro i pc hi
    have hi' : (st.table.foldl (fun acc e => closePC acc e.2) st.store).get? i = some pc := hi
    rw [fold_close_get?] at hi'
    by_cases hm : i ∈ st.table.map Prod.snd
    · rw [if_pos hm] at hi'
      cases hs : st.store.get? i with
      | none => rw [hs] at hi'; exact Option.noConfusion hi'
      | some pc0 =>
        rw [hs] at hi'
        injection hi' with hi'
        rw [← hi']
    · rw [if_neg hm] at hi'
      by_cases hc : pc.closed = true
      · exact hc
      · have hcf : pc.closed = false := by
          revert hc; cases pc.closed <;> simp
        have h0 := hI i pc hi' hcf
        have hmem : (pc.peer, i) ∈ st.table := mem_of_alookup h0
        exact absurd (List.mem_map.mpr ⟨(pc.peer, i), hmem, rfl⟩) hm
  · intro ids tid b hls hmem htid
    have hmem' : (tid, b) ∈ (match st.localStream with
        | some ids2 =>
          st.media.map (fun (t : Nat × Bool) => if t.1 ∈ ids2 then (t.1, true) else t)
        | none => st.media) := hmem
    rw [hls] at hmem'
    rcases List.mem_map.mp hmem' with ⟨t, htm, hteq⟩
    by_cases hc : t.1 ∈ ids
    · rw [if_pos hc] at hteq
      have hsnd := congrArg Prod.snd hteq
      simpa using hsnd.symm
    · rw [if_neg hc] at hteq
      rw [hteq] at hc
      exact absurd htid hc

/-- Witness for C7 (amended): the fresh demo client state. -/
theorem C7_witness :
    (SFU.disconnect demoClientA).table = [] ∧
    (SFU.disconnect demoClientA).connected = false ∧
    SFU.wsOnClose demoClientA = { demoClientA with connected := false } := by
  have h := C7_release_paths demoClientA
    (by intro i pc hi hc; cases i <;> exact Option.noConfusion hi)
  exact ⟨h.2.1, h.2.2.2.1, h.2.2.2.2.2⟩

/-! Claim C8. -/

/-- Counterexample for C8: in the presence hook, processing the leave event
for peer p closes and removes p's handle and removes p's remote-stream
entry, but p's entry in the participants roster survives that
event-processing step. -/
theorem C8_counterexample :
    (Supa.onPresenceLeave "p" demoSupaMid).roster = [("p", some "Pat")] ∧
    alookup (Supa.onPresenceLeave "p" demoSupaMid).table "p" = none ∧
    alookup (Supa.onPresenceLeave "p" demoSupaMid).streams "p" = none ∧
    ((Supa.onPresenceLeave "p" demoSupaMid).store.get? 0).map PC.closed = some true := by
  decide

/-- C8 (amended): on a participant-left event the WebSocket hook closes the
peer's handle and removes its table entry, roster entry and remote-stream
entry in that one step; the presence hook's leave handler closes the handle
and removes the table and remote-stream entries but leaves the roster
unchanged — the roster is reconciled by the separate presence-sync handler,
which rebuilds it from the presence state (minus the own id), so a peer
absent from that state is dropped only then. -/
theorem C8_left_cleanup (pid : String) (st : SFU.CState) (sst : Supa.SState)
    (ps : List (String × Option String)) :
    alookup (SFU.onParticipantLeft pid st).table pid = none ∧
    alookup (SFU.onParticipantLeft pid st).roster pid = none ∧
    alookup (SFU.onParticipantLeft pid st).streams pid = none ∧
    (∀ i pc, alookup st.table pid = some i → st.store.get? i = some pc →
      (SFU.onParticipantLeft pid st).store.get? i = some { pc with closed := true }) ∧
    alookup (Supa.onPresenceLeave pid sst).table pid = none ∧
    alookup (Supa.onPresenceLeave pid sst).streams pid = none ∧
    (Supa.onPresenceLeave pid sst).roster = sst.roster ∧
    (∀ i pc, alookup sst.table pid = some i → sst.store.get? i = some pc →
      (Supa.onPresenceLeave pid sst).store.get? i = some { pc with closed := true }) ∧
    (alookup ps pid = none → alookup (Supa.onPresenceSync ps sst).roster pid = none) := by
  refine ⟨?_, ?_, ?_, ?_, ?_, ?_, ?_, ?_, ?_⟩
  · unfold SFU.onParticipantLeft
    cases ht : alookup st.table pid with
    | some i => exact alookup_adel_self _ _
    | none => exact ht
  · unfold SFU.onParticipantLeft
    cases ht : alookup st.table pid with
    | some i => exact alookup_adel_self _ _
    | none => exact alookup_adel_self _ _
  · unfold SFU.onParticipantLeft
    cases ht : alookup st.table pid with
    | some i => exact alookup_adel_self _ _
    | none => exact alookup_adel_self _ _
  · intro i pc hi hpc
    unfold SFU.onParticipantLeft
    rw [hi]
    show (closePC st.store i).get? i = _
    rw [closePC, modifyPC_get?, if_pos rfl, hpc]
    rfl
  · unfold Supa.onPresenceLeave
    cases ht : alookup sst.table pid with
    | some i => exact alookup_adel_self _ _
    | none => exact ht
  · unfold Supa.onPresenceLeave
    cases ht : alookup sst.table pid with
    | some i => exact alookup_adel_self _ _
    | none => exact alookup_adel_self _ _
  · unfold Supa.onPresenceLeave
    cases ht : alookup sst.table pid with
    | some i => rfl
    | none => rfl
  · intro i pc hi hpc
    unfold Supa.onPresenceLeave
    rw [hi]
    show (closePC sst.store i).get? i = _
    rw [closePC, modifyPC_get?, if_pos rfl, hpc]
    rfl
  · intro h
    unfold Supa.onPresenceSync
    show alookup (adel ps sst.selfId) pid = none
    by_cases hps : pid = sst.selfId
    · rw [hps]; exact alookup_adel_self _ _
    · rw [alookup_adel_ne _ _ _ hps]; exact h

/-- Witness for C8 (amended): the two mid-call demo states. -/
theorem C8_witness :
    alookup (SFU.onParticipantLeft "p" demoSFUMid).roster "p" = none ∧
    (Supa.onPresenceLeave "p" demoSupaMid).roster = demoSupaMid.roster ∧
    (Supa.onPresenceLeave "p" demoSupaMid).store.get? 0 =
      some { peer := "p", localDesc := some "o", remoteDesc := some "a", applied := [],
             tracks := [0], closed := true } := by
  have h := C8_left_cleanup "p" demoSFUMid demoSupaMid [("q", none)]
  refine ⟨h.2.1, h.2.2.2.2.2.2.1, ?_⟩
  exact h.2.2.2.2.2.2.2.1 0 ({ peer := "p",
                               localDesc := some "o",
                               remoteDesc := some "a",
                               applied := [],
                               tracks := [0],
                               closed := false } : PC) (by decide) (by decide)

end FriendFace
